import Mathlib

/-!
Shallow embedding of the Chinese-Vietnamese dictionary translator
(`ChineseVietnameseTranslator` in src/main.py).

Strings are modelled as `List Char` (Python strings index by code point, as
`List Char` does).  Python dictionaries are modelled as association lists
(`PyDict`) whose insertion (`dictInsert`) overwrites an existing binding in
place, like a Python `dict`.  The `while` loop of `trans_vp` is modelled with
a fuel parameter equal to the length of the text being scanned: every loop
iteration advances the scan position by at least one character, so that much
fuel always suffices, and the zero-fuel fallback is unreachable from
`trans_vp` itself.
-/

namespace VietPhrase

/-- A Python dictionary from strings to strings, as an association list in
insertion order. -/
abbrev PyDict := List (List Char × List Char)

/-- Membership test of `str.strip()`: ASCII whitespace as stripped by Python
from the lexicon lines and translation results that occur in this program. -/
def isPySpace (c : Char) : Bool :=
  c == ' ' || c == '\t' || c == '\n' || c == '\r' || c == Char.ofNat 11 || c == Char.ofNat 12

/-- Python `s.strip()`: remove leading and trailing whitespace. -/
def pyStrip (s : List Char) : List Char :=
  ((s.dropWhile isPySpace).reverse.dropWhile isPySpace).reverse

/-- Lookup in a Python dictionary: the binding for `k`, if any.  Bindings are
kept unique by `dictInsert`, so the first hit is the binding. -/
def dictLookup (d : PyDict) (k : List Char) : Option (List Char) :=
  match d.find? (fun p => p.1 == k) with
  | some p => some p.2
  | none => none

/-- Python `d[k]` where the key is known to be present (the default is never
reached when `k` is a key of `d`). -/
def dictGetD (d : PyDict) (k : List Char) : List Char :=
  match dictLookup d k with
  | some v => v
  | none => []

/-- Python `d[k] = v`: overwrite the existing binding in place (keys keep
their position in insertion order), else append a new binding. -/
def dictInsert (d : PyDict) (k v : List Char) : PyDict :=
  if d.any (fun p => p.1 == k) then
    d.map (fun p => if p.1 == k then (p.1, v) else p)
  else d ++ [(k, v)]

/-- The keys of a dictionary, in insertion order (Python `d.keys()`). -/
def keysOf (d : PyDict) : List (List Char) :=
  d.map (fun p => p.1)

/-- Python string comparison: lexicographic by code point. -/
def lexLe : List Char → List Char → Bool
  | [], _ => true
  | _ :: _, [] => false
  | a :: as, b :: bs => if a = b then lexLe as bs else decide (a < b)

/-- The sort key `lambda x: (-len(x), x)` of main.py line 68/73, as the
ordering it induces: longer strings first, ties by ascending code points. -/
def keyLe (a b : List Char) : Bool :=
  decide (b.length < a.length) || (decide (a.length = b.length) && lexLe a b)

/-- Insert into a list already ordered by `keyLe`. -/
def insertKey (x : List Char) : List (List Char) → List (List Char)
  | [] => [x]
  | y :: ys => if keyLe x y then x :: y :: ys else y :: insertKey x ys

/-- Python `sorted(keys, key=lambda x: (-len(x), x))` (main.py lines 68, 73).
Insertion sort; dictionary keys are pairwise distinct and `keyLe` is a total
order that is strict on distinct strings, so the sorted list is the unique
one and stability is not at stake. -/
def sortKeys (ks : List (List Char)) : List (List Char) :=
  ks.foldr insertKey []

/-- The translator's option dictionary (main.py lines 13-18). -/
structure Options where
  Ngoac : Bool
  Motnghia : Bool
  daucach : List Char
  DichLieu : Bool

/-- Default options of `__init__`: Ngoac=False, Motnghia=True, daucach="/",
DichLieu=True. -/
def defaultOptions : Options :=
  { Ngoac := false, Motnghia := true, daucach := ['/'], DichLieu := true }

/-- The translator's mutable state: the three dictionaries and the two sorted
key lists kept alongside them (main.py lines 21-27), plus the options. -/
structure TransState where
  options : Options
  dict_pa : PyDict
  dict_vp : PyDict
  dict_names : PyDict
  dict_vp_keys : List (List Char)
  dict_names_keys : List (List Char)

/-- The state right after `__init__` sets its fields, before any load. -/
def initState : TransState :=
  { options := defaultOptions, dict_pa := [], dict_vp := [], dict_names := [],
    dict_vp_keys := [], dict_names_keys := [] }

/-- A state whose key indexes are derived from the dictionaries exactly as
the loader derives them (sorted by descending length then code points). -/
def mkVPState (pa vp names : PyDict) (opts : Options) : TransState :=
  { options := opts, dict_pa := pa, dict_vp := vp, dict_names := names,
    dict_vp_keys := sortKeys (keysOf vp), dict_names_keys := sortKeys (keysOf names) }

/-- Helper of the empty-pattern case of Python `str.replace`: interleave the
replacement after every character. -/
def interAfter (rep : List Char) : List Char → List Char
  | [] => []
  | c :: cs => c :: rep ++ interAfter rep cs

/-- Python `s.replace(pat, rep)` for a non-empty pattern, scanning left to
right and replacing non-overlapping occurrences.  The fuel starts at
`s.length`; each step consumes at least one character of `s` (the pattern is
non-empty in the replacing branch), so the zero-fuel clause is unreachable
from `pyReplace`. -/
def pyReplaceFuel (pat rep : List Char) : Nat → List Char → List Char
  | _, [] => []
  | 0, s => s
  | fuel + 1, c :: cs =>
    if pat.isPrefixOf (c :: cs) then rep ++ pyReplaceFuel pat rep fuel ((c :: cs).drop pat.length)
    else c :: pyReplaceFuel pat rep fuel cs

/-- Python `s.replace(pat, rep)` (all occurrences).  With an empty pattern
Python inserts the replacement before, between and after all characters. -/
def pyReplace (s pat rep : List Char) : List Char :=
  if pat = [] then rep ++ interAfter rep s
  else pyReplaceFuel pat rep s.length s

/-- One pass of the name pre-loop body (main.py line 101):
`text = text.replace(name, ' ' + self.dict_names[name])`. -/
def nameStep (names : PyDict) (t : List Char) (name : List Char) : List Char :=
  pyReplace t name (' ' :: dictGetD names name)

/-- The name pre-pass of `trans_vp` (main.py lines 99-101): when both the
name dictionary and its key list are non-empty, rewrite the text once per
sorted name key, feeding each result into the next pass. -/
def namePass (names : PyDict) (keys : List (List Char)) (text : List Char) : List Char :=
  if names = [] ∨ keys = [] then text
  else keys.foldl (nameStep names) text

/-- Python `vp.split(daucach)[0]`: the prefix of `s` before the first
occurrence of the separator string, or all of `s` if the separator does not
occur (Python raises on an empty separator; the engine only ever passes the
non-empty `daucach`, for which this clause is irrelevant). -/
def pySplitFirst (s sep : List Char) : List Char :=
  if sep = [] then s
  else if sep.isPrefixOf s then []
  else
    match s with
    | [] => []
    | c :: cs => c :: pySplitFirst cs sep

/-- Python `re.sub(r' +', ' ', s)` (main.py line 156): collapse every run of
spaces to a single space. -/
def collapse_spaces : List Char → List Char
  | [] => []
  | [c] => [c]
  | c1 :: c2 :: rest =>
    if c1 == ' ' && c2 == ' ' then collapse_spaces (c2 :: rest)
    else c1 :: collapse_spaces (c2 :: rest)

/-- The inner `for j in range(max_length, 0, -1)` loop of `trans_vp`
(main.py lines 113-132): scan candidate lengths from `maxLen` down to 1,
skipping lengths that overrun the text, and return the value and length of
the first (longest) phrase-dictionary hit on the current suffix. -/
def find_vp_match (vp : PyDict) (rest : List Char) : Nat → Option (List Char × Nat)
  | 0 => none
  | n + 1 =>
    if n + 1 ≤ rest.length then
      match dictLookup vp (rest.take (n + 1)) with
      | some v => some (v, n + 1)
      | none => find_vp_match vp rest n
    else find_vp_match vp rest n

/-- The main `while i < len(text)` loop of `trans_vp` (main.py lines
108-153), acting on the suffix of the text from the scan position.  On a
phrase match the matched value is post-processed by the `Motnghia` and
`Ngoac` options and emitted with a leading space, and the match length is
consumed; otherwise a particle of `dichlieu` is dropped, a phonetic hit is
emitted with a leading space, and any other character is copied through with
no space.  Fuel bounds the number of loop iterations; since each iteration
consumes at least one character, fuel `text.length` suffices. -/
def trans_loop (vp pa : PyDict) (opts : Options) (particles : List Char) (maxLen : Nat) :
    Nat → List Char → List Char
  | _, [] => []
  | 0, _ :: _ => []
  | fuel + 1, c :: cs =>
    match find_vp_match vp (c :: cs) maxLen with
    | some vj =>
      let v1 := if opts.Motnghia then pySplitFirst vj.1 opts.daucach else vj.1
      let v2 := if opts.Ngoac then '[' :: pyStrip v1 ++ [']'] else v1
      ' ' :: v2 ++ trans_loop vp pa opts particles maxLen fuel ((c :: cs).drop vj.2)
    | none =>
      if c ∈ particles then trans_loop vp pa opts particles maxLen fuel cs
      else
        match dictLookup pa [c] with
        | some pv => ' ' :: pv ++ trans_loop vp pa opts particles maxLen fuel cs
        | none => c :: trans_loop vp pa opts particles maxLen fuel cs

/-- `max_length = len(self.dict_vp_keys[0]) if self.dict_vp_keys else 0`
(main.py line 104). -/
def maxKeyLen : List (List Char) → Nat
  | [] => 0
  | k :: _ => k.length

/-- `trans_vp` (main.py lines 91-156): return the text unchanged when either
the phrase or the phonetic dictionary is empty; otherwise run the name
pre-pass, the main scanning loop, and finally collapse space runs and strip
the result. -/
def trans_vp (st : TransState) (text : List Char) : List Char :=
  if st.dict_vp = [] ∨ st.dict_pa = [] then text
  else
    let text2 := namePass st.dict_names st.dict_names_keys text
    let particles := if st.options.DichLieu then ['的', '了', '着'] else []
    pyStrip (collapse_spaces (trans_loop st.dict_vp st.dict_pa st.options particles
      (maxKeyLen st.dict_vp_keys) text2.length text2))

/-- `translate` (main.py lines 158-160): delegate to `trans_vp`. -/
def translate (st : TransState) (text : List Char) : List Char :=
  trans_vp st text

/-- Error-aware Python `vp.split(daucach)[0]`: CPython raises
`ValueError: empty separator` when `str.split` is called with an empty
separator string, which happens on every `Motnghia` phrase match when the
`daucach` option has been set to the empty string; a raise is modelled as
`Except.error`.  For a non-empty separator the scan never errors and agrees
with `pySplitFirst`. -/
def pySplitFirstE (s sep : List Char) : Except Unit (List Char) :=
  if sep = [] then Except.error ()
  else Except.ok (pySplitFirst s sep)

/-- Error-aware variant of the main scanning loop: identical to
`trans_loop` except that the `Motnghia` split of a matched phrase value goes
through `pySplitFirstE`, and a raise propagates out of the loop as
`Except.error` exactly as a Python exception would unwind the `while`
loop. -/
def trans_loopE (vp pa : PyDict) (opts : Options) (particles : List Char) (maxLen : Nat) :
    Nat → List Char → Except Unit (List Char)
  | _, [] => Except.ok []
  | 0, _ :: _ => Except.ok []
  | fuel + 1, c :: cs =>
    match find_vp_match vp (c :: cs) maxLen with
    | some vj =>
      match (if opts.Motnghia then pySplitFirstE vj.1 opts.daucach else Except.ok vj.1) with
      | Except.error e => Except.error e
      | Except.ok v1 =>
        let v2 := if opts.Ngoac then '[' :: pyStrip v1 ++ [']'] else v1
        match trans_loopE vp pa opts particles maxLen fuel ((c :: cs).drop vj.2) with
        | Except.error e => Except.error e
        | Except.ok restOut => Except.ok (' ' :: v2 ++ restOut)
    | none =>
      if c ∈ particles then trans_loopE vp pa opts particles maxLen fuel cs
      else
        match dictLookup pa [c] with
        | some pv =>
          match trans_loopE vp pa opts particles maxLen fuel cs with
          | Except.error e => Except.error e
          | Except.ok restOut => Except.ok (' ' :: pv ++ restOut)
        | none =>
          match trans_loopE vp pa opts particles maxLen fuel cs with
          | Except.error e => Except.error e
          | Except.ok restOut => Except.ok (c :: restOut)

/-- Error-aware `trans_vp`: identical to `trans_vp` but propagating the
`ValueError` that the empty-separator split can raise out of the function
instead of returning a string. -/
def trans_vpE (st : TransState) (text : List Char) : Except Unit (List Char) :=
  if st.dict_vp = [] ∨ st.dict_pa = [] then Except.ok text
  else
    let text2 := namePass st.dict_names st.dict_names_keys text
    let particles := if st.options.DichLieu then ['的', '了', '着'] else []
    match trans_loopE st.dict_vp st.dict_pa st.options particles
        (maxKeyLen st.dict_vp_keys) text2.length text2 with
    | Except.error e => Except.error e
    | Except.ok raw => Except.ok (pyStrip (collapse_spaces raw))

/-- Error-aware `translate`: delegate to `trans_vpE`. -/
def translateE (st : TransState) (text : List Char) : Except Unit (List Char) :=
  trans_vpE st text

/-- `line.startswith(('//', '#', '='))` (main.py line 57). -/
def isCommentLine (l : List Char) : Bool :=
  ['/', '/'].isPrefixOf l || ['#'].isPrefixOf l || ['='].isPrefixOf l

/-- Python `line.split('=', 1)` restricted to whether it yields two parts:
`some (before, after)` around the first separator when the separator occurs,
`none` otherwise (in which case the loader skips the line). -/
def splitOnce (s : List Char) (sep : Char) : Option (List Char × List Char) :=
  if s.contains sep then
    some (s.takeWhile (fun c => c != sep), (s.dropWhile (fun c => c != sep)).tail)
  else none

/-- The per-line body of `load_dict_from_file` (main.py lines 55-63): strip
the line; skip it if empty, comment-like, or without `'='`; otherwise bind
the untrimmed left part of the first `'='` split to the trimmed right part,
overwriting any earlier binding of the same key. -/
def processLine (d : PyDict) (rawLine : List Char) : PyDict :=
  let line := pyStrip rawLine
  if line = [] then d
  else if isCommentLine line then d
  else
    match splitOnce line '=' with
    | none => d
    | some kv => dictInsert d kv.1 (pyStrip kv.2)

/-- The dictionary built by the reading loop of `load_dict_from_file` from
the lines of a successfully read source. -/
def load_dict_from_lines (ls : List (List Char)) : PyDict :=
  ls.foldl processLine []

/-- Which of the three dictionaries a load call targets. -/
inductive DictType
  | pa
  | vp
  | names

/-- `load_dict_from_file` (main.py lines 50-79).  The file system read is
modelled by an `Except` argument: an error stands for any I/O or decoding
failure raised inside the `try` block, on which the function leaves the state
untouched and returns `False`; on success it parses the lines, stores the
result into the targeted dictionary, re-derives the sorted key index for the
phrase and name dictionaries, and returns `True`. -/
def load_dict_from_file (src : Except Unit (List (List Char))) (dictType : DictType)
    (st : TransState) : TransState × Bool :=
  match src with
  | Except.error _ => (st, false)
  | Except.ok ls =>
    let result := load_dict_from_lines ls
    match dictType with
    | DictType.vp =>
      ({ st with dict_vp := result, dict_vp_keys := sortKeys (keysOf result) }, true)
    | DictType.pa =>
      ({ st with dict_pa := result }, true)
    | DictType.names =>
      ({ st with dict_names := result, dict_names_keys := sortKeys (keysOf result) }, true)

/-- `load_default_dictionaries` (main.py lines 32-48): load the phonetic,
phrase and name sources in turn, each independently of the outcome of the
others, and report the three success booleans. -/
def load_default_dictionaries (paSrc vpSrc namesSrc : Except Unit (List (List Char)))
    (st : TransState) : TransState × (Bool × Bool × Bool) :=
  let r1 := load_dict_from_file paSrc DictType.pa st
  let r2 := load_dict_from_file vpSrc DictType.vp r1.1
  let r3 := load_dict_from_file namesSrc DictType.names r2.1
  (r3.1, (r1.2, r2.2, r3.2))

/-- Key extraction exactly as the specification words it for claim C6: the
left part of the first `'='` split of the retained source line itself, used
verbatim and untrimmed, including any leading or trailing whitespace present
before the `'='`. -/
def claimedKey (rawLine : List Char) : List Char :=
  rawLine.takeWhile (fun c => c != '=')

/-- A successful dictionary lookup comes from a binding of the dictionary. -/
theorem dictLookup_some {d : PyDict} {k v : List Char} (h : dictLookup d k = some v) :
    ∃ kv ∈ d, kv.1 = k ∧ kv.2 = v := by
  unfold dictLookup at h
  cases hf : d.find? (fun p => p.1 == k) with
  | none => rw [hf] at h; cases h
  | some pr =>
    rw [hf] at h
    have h0 := List.find?_some hf
    have h2 : pr ∈ d := List.mem_of_find?_eq_some hf
    exact ⟨pr, h2, eq_of_beq h0, by injection h⟩

/-- Looking up a key that no binding carries yields `none`. -/
theorem dictLookup_eq_none {d : PyDict} {k : List Char}
    (h : ∀ kv ∈ d, kv.1 ≠ k) : dictLookup d k = none := by
  cases hl : dictLookup d k with
  | none => rfl
  | some v =>
    obtain ⟨kv, hkv, hk, _⟩ := dictLookup_some hl
    exact absurd hk (h kv hkv)

/-- Appending a fresh binding makes it the one found for its key. -/
theorem dictLookup_append_fresh {d : PyDict} {k v : List Char}
    (h : d.any (fun p => p.1 == k) = false) :
    dictLookup (d ++ [(k, v)]) k = some v := by
  induction d with
  | nil => simp [dictLookup, List.find?]
  | cons a d ih =>
    simp only [List.any_cons, Bool.or_eq_false_iff] at h
    simp only [List.cons_append, dictLookup, List.find?]
    rw [h.1]
    have := ih h.2
    simpa [dictLookup] using this

/-- Overwriting every binding of a present key makes the lookup return the
new value. -/
theorem dictLookup_overwrite {d : PyDict} {k v : List Char}
    (h : d.any (fun p => p.1 == k) = true) :
    dictLookup (d.map (fun p => if p.1 == k then (p.1, v) else p)) k = some v := by
  induction d with
  | nil => cases h
  | cons a d ih =>
    simp only [List.any_cons, Bool.or_eq_true] at h
    by_cases ha : (a.1 == k) = true
    · have hk : a.1 = k := eq_of_beq ha
      simp only [List.map_cons, if_pos ha, dictLookup, List.find?]
      simp [hk]
    · have h2 : d.any (fun p => p.1 == k) = true := by
        rcases h with h | h
        · exact absurd h ha
        · exact h
      simp only [List.map_cons, if_neg ha, dictLookup, List.find?]
      rw [Bool.of_not_eq_true ha]
      have := ih h2
      simpa [dictLookup] using this

/-- After a Python-style insert, looking up the inserted key yields the
inserted value. -/
theorem dictLookup_dictInsert (d : PyDict) (k v : List Char) :
    dictLookup (dictInsert d k v) k = some v := by
  unfold dictInsert
  by_cases h : d.any (fun p => p.1 == k) = true
  · rw [if_pos h]
    exact dictLookup_overwrite h
  · rw [if_neg h]
    exact dictLookup_append_fresh (Bool.of_not_eq_true h)

/-- A hit of the inner length loop: the length is positive, bounded by the
loop's starting length and by the suffix, and the taken substring is a
phrase-dictionary key with the returned value. -/
theorem find_vp_match_pos (vp : PyDict) (rest : List Char) :
    ∀ n v j, find_vp_match vp rest n = some (v, j) →
      1 ≤ j ∧ j ≤ n ∧ j ≤ rest.length ∧ dictLookup vp (rest.take j) = some v := by
  intro n
  induction n with
  | zero => intro v j h; cases h
  | succ m ih =>
    intro v j h
    rw [find_vp_match] at h
    by_cases hle : m + 1 ≤ rest.length
    · rw [if_pos hle] at h
      cases hlk : dictLookup vp (rest.take (m + 1)) with
      | some w =>
        rw [hlk] at h
        injection h with h'
        injection h' with h1 h2
        subst h1
        subst h2
        exact ⟨by omega, le_refl _, hle, hlk⟩
      | none =>
        rw [hlk] at h
        have := ih v j h
        exact ⟨this.1, by omega, this.2.2⟩
    · rw [if_neg hle] at h
      have := ih v j h
      exact ⟨this.1, by omega, this.2.2⟩

/-- The inner length loop returns the longest hit: every strictly longer
candidate length within the scanned range misses the dictionary. -/
theorem find_vp_match_longest (vp : PyDict) (rest : List Char) :
    ∀ n v j, find_vp_match vp rest n = some (v, j) →
      ∀ i, j < i → i ≤ n → i ≤ rest.length → dictLookup vp (rest.take i) = none := by
  intro n
  induction n with
  | zero => intro v j h; cases h
  | succ m ih =>
    intro v j h i hji him hilen
    rw [find_vp_match] at h
    by_cases hle : m + 1 ≤ rest.length
    · rw [if_pos hle] at h
      cases hlk : dictLookup vp (rest.take (m + 1)) with
      | some w =>
        rw [hlk] at h
        injection h with h'
        injection h' with h1 h2
        subst h2
        omega
      | none =>
        rw [hlk] at h
        by_cases hi : i = m + 1
        · rw [hi]; exact hlk
        · exact ih v j h i hji (by omega) hilen
    · rw [if_neg hle] at h
      by_cases hi : i = m + 1
      · omega
      · exact ih v j h i hji (by omega) hilen

/-- If no candidate length hits the phrase dictionary, the inner loop finds
nothing. -/
theorem find_vp_match_eq_none (vp : PyDict) (rest : List Char) :
    ∀ n, (∀ j, 1 ≤ j → j ≤ n → j ≤ rest.length → dictLookup vp (rest.take j) = none) →
      find_vp_match vp rest n = none := by
  intro n
  induction n with
  | zero => intro _; rfl
  | succ m ih =>
    intro h
    rw [find_vp_match]
    by_cases hle : m + 1 ≤ rest.length
    · rw [if_pos hle, h (m + 1) (by omega) (le_refl _) hle]
      exact ih (fun j h1 h2 h3 => h j h1 (by omega) h3)
    · rw [if_neg hle]
      exact ih (fun j h1 h2 h3 => h j h1 (by omega) h3)

/-- Replacing a pattern whose first character does not occur in the text is
the identity, whatever the fuel. -/
theorem pyReplaceFuel_id {p : Char} {ps rep : List Char} :
    ∀ (fuel : Nat) (s : List Char), p ∉ s → pyReplaceFuel (p :: ps) rep fuel s = s := by
  intro fuel
  induction fuel with
  | zero =>
    intro s _
    cases s with
    | nil => rfl
    | cons c cs => rfl
  | succ m ih =>
    intro s hp
    cases s with
    | nil => rfl
    | cons c cs =>
      rw [pyReplaceFuel]
      have hpc : ((p :: ps).isPrefixOf (c :: cs)) = false := by
        simp only [List.isPrefixOf, Bool.and_eq_false_iff]
        left
        simp only [beq_eq_false_iff_ne, ne_eq]
        intro hcontra
        exact hp (hcontra ▸ List.mem_cons_self c cs)
      rw [hpc]
      simp only [Bool.false_eq_true, if_false, List.cons.injEq, true_and]
      exact ih cs (fun hmem => hp (List.mem_cons_of_mem c hmem))

/-- Replacing a pattern none of whose characters occurs in the text is the
identity, provided the pattern is non-empty. -/
theorem pyReplace_id {s pat rep : List Char} (hne : pat ≠ [])
    (h : ∀ c ∈ s, c ∉ pat) : pyReplace s pat rep = s := by
  unfold pyReplace
  rw [if_neg hne]
  cases pat with
  | nil => exact absurd rfl hne
  | cons p ps =>
    apply pyReplaceFuel_id
    intro hp
    exact h p hp (List.mem_cons_self p ps)

/-- The rewriting fold of the name pre-pass is the identity when every key
is non-empty and shares no character with the text. -/
theorem foldl_nameStep_id (names : PyDict) :
    ∀ (keys : List (List Char)) (text : List Char),
      (∀ k ∈ keys, k ≠ [] ∧ ∀ c ∈ text, c ∉ k) →
      keys.foldl (nameStep names) text = text := by
  intro keys
  induction keys with
  | nil => intro text _; rfl
  | cons k ks ih =>
    intro text h
    have hk := h k (List.mem_cons_self k ks)
    have hstep : nameStep names text k = text :=
      pyReplace_id hk.1 hk.2
    rw [List.foldl_cons, hstep]
    exact ih text (fun k' hk' => h k' (List.mem_cons_of_mem k hk'))

/-- The name pre-pass is the identity when every listed key is non-empty and
shares no character with the text. -/
theorem namePass_id {names : PyDict} {keys : List (List Char)} {text : List Char}
    (h : ∀ k ∈ keys, k ≠ [] ∧ ∀ c ∈ text, c ∉ k) :
    namePass names keys text = text := by
  unfold namePass
  by_cases hg : names = [] ∨ keys = []
  · rw [if_pos hg]
  · rw [if_neg hg]
    exact foldl_nameStep_id names keys text h

/-- Membership in an insertion-sorted list comes from the inserted element or
the underlying list. -/
theorem mem_insertKey {x y : List Char} {l : List (List Char)}
    (h : x ∈ insertKey y l) : x = y ∨ x ∈ l := by
  induction l with
  | nil =>
    simp only [insertKey, List.mem_singleton] at h
    exact Or.inl h
  | cons z zs ih =>
    rw [insertKey] at h
    by_cases hc : keyLe y z = true
    · rw [if_pos hc] at h
      rcases List.mem_cons.mp h with h | h
      · exact Or.inl h
      · exact Or.inr h
    · rw [if_neg hc] at h
      rcases List.mem_cons.mp h with h | h
      · exact Or.inr (h ▸ List.mem_cons_self z zs)
      · rcases ih h with h | h
        · exact Or.inl h
        · exact Or.inr (List.mem_cons_of_mem z h)

/-- Every element of the sorted key list is one of the keys being sorted. -/
theorem mem_sortKeys {x : List Char} {l : List (List Char)}
    (h : x ∈ sortKeys l) : x ∈ l := by
  induction l with
  | nil => cases h
  | cons y ys ih =>
    rcases mem_insertKey h with h | h
    · exact h ▸ List.mem_cons_self y ys
    · exact List.mem_cons_of_mem y (ih h)

/-- The scanning loop copies the text through verbatim when no character of
the text occurs in a phrase key, occurs in a phonetic key, or is a dropped
particle. -/
theorem trans_loop_passthrough (vp pa : PyDict) (opts : Options) (particles : List Char)
    (maxLen : Nat) :
    ∀ (fuel : Nat) (text : List Char), text.length ≤ fuel →
      (∀ c ∈ text, (∀ kv ∈ vp, c ∉ kv.1) ∧ (∀ kv ∈ pa, c ∉ kv.1) ∧ c ∉ particles) →
      trans_loop vp pa opts particles maxLen fuel text = text := by
  intro fuel
  induction fuel with
  | zero =>
    intro text hlen _
    cases text with
    | nil => rfl
    | cons c cs => simp at hlen
  | succ m ih =>
    intro text hlen h
    cases text with
    | nil => rfl
    | cons c cs =>
      have hc := h c (List.mem_cons_self c cs)
      have hfind : find_vp_match vp (c :: cs) maxLen = none := by
        apply find_vp_match_eq_none
        intro j h1 _ _
        apply dictLookup_eq_none
        intro kv hkv hkeq
        have hmem : c ∈ kv.1 := by
          rw [hkeq]
          cases j with
          | zero => omega
          | succ j' => exact List.mem_cons_self c (cs.take j')
        exact hc.1 kv hkv hmem
      have hpa : dictLookup pa [c] = none := by
        apply dictLookup_eq_none
        intro kv hkv hkeq
        exact hc.2.1 kv hkv (hkeq ▸ List.mem_singleton.mpr rfl)
      simp only [trans_loop, hfind, hpa]
      rw [if_neg hc.2.2]
      rw [ih cs (by simpa using Nat.le_of_succ_le_succ (by simpa using hlen))
        (fun c' hc' => h c' (List.mem_cons_of_mem c hc'))]

/-- The scanning loop emits nothing on a text made only of particles, when
every phrase key contains some non-particle character (so that no phrase
match can fire on the text). -/
theorem trans_loop_particles (vp pa : PyDict) (opts : Options) (particles : List Char)
    (maxLen : Nat) (hvp : ∀ kv ∈ vp, ∃ c ∈ kv.1, c ∉ particles) :
    ∀ (fuel : Nat) (text : List Char), text.length ≤ fuel →
      (∀ c ∈ text, c ∈ particles) →
      trans_loop vp pa opts particles maxLen fuel text = [] := by
  intro fuel
  induction fuel with
  | zero =>
    intro text hlen _
    cases text with
    | nil => rfl
    | cons c cs => simp at hlen
  | succ m ih =>
    intro text hlen h
    cases text with
    | nil => rfl
    | cons c cs =>
      have hfind : find_vp_match vp (c :: cs) maxLen = none := by
        apply find_vp_match_eq_none
        intro j _ _ _
        apply dictLookup_eq_none
        intro kv hkv hkeq
        obtain ⟨c', hc'mem, hc'np⟩ := hvp kv hkv
        have hc'text : c' ∈ c :: cs := List.take_subset j (c :: cs) (hkeq ▸ hc'mem)
        exact hc'np (h c' hc'text)
      simp only [trans_loop, hfind]
      rw [if_pos (h c (List.mem_cons_self c cs))]
      exact ih cs (by simpa using Nat.le_of_succ_le_succ (by simpa using hlen))
        (fun c' hc' => h c' (List.mem_cons_of_mem c hc'))

/-- With a non-empty meaning separator the error-aware scanning loop never
raises and agrees with the plain loop, for every fuel and text. -/
theorem trans_loopE_ok (vp pa : PyDict) (opts : Options) (particles : List Char)
    (maxLen : Nat) (hsep : opts.daucach ≠ []) :
    ∀ (fuel : Nat) (text : List Char),
      trans_loopE vp pa opts particles maxLen fuel text =
        Except.ok (trans_loop vp pa opts particles maxLen fuel text) := by
  intro fuel
  induction fuel with
  | zero =>
    intro text
    cases text with
    | nil => rfl
    | cons c cs => rfl
  | succ m ih =>
    intro text
    cases text with
    | nil => rfl
    | cons c cs =>
      cases hf : find_vp_match vp (c :: cs) maxLen with
      | some vj =>
        have hsplit : (if opts.Motnghia then pySplitFirstE vj.1 opts.daucach
            else Except.ok vj.1) =
            Except.ok (if opts.Motnghia then pySplitFirst vj.1 opts.daucach else vj.1) := by
          cases hm : opts.Motnghia
          · simp [hm]
          · simp [hm, pySplitFirstE, hsep]
        simp only [trans_loopE, trans_loop, hf, hsplit, ih]
      | none =>
        simp only [trans_loopE, trans_loop, hf]
        by_cases hcp : c ∈ particles
        · rw [if_pos hcp, if_pos hcp]
          exact ih cs
        · rw [if_neg hcp, if_neg hcp]
          cases dictLookup pa [c] with
          | some pv => simp only [ih]
          | none => simp only [ih]

/-- Claim C1.  At every scan position the segmentation engine consumes the
longest phrase-lexicon key matching there, with no backtracking or
lookahead: a hit of the inner length loop is a phrase key of the taken
length while every strictly longer candidate length in range misses, and in
particular with phrase lexicon AB mapped to x and A mapped to y (and any
non-empty phonetic lexicon, without which the engine returns its input),
translating AB yields x, not y y nor y B. -/
theorem longest_match_first :
    (∀ (vp : PyDict) (rest : List Char) (n : Nat) (v : List Char) (j : Nat),
       find_vp_match vp rest n = some (v, j) →
       dictLookup vp (rest.take j) = some v ∧
       ∀ i, j < i → i ≤ n → i ≤ rest.length → dictLookup vp (rest.take i) = none) ∧
    (∀ pa : PyDict, pa ≠ [] →
       translate (mkVPState pa [(['A', 'B'], ['x']), (['A'], ['y'])] [] defaultOptions)
         ['A', 'B'] = ['x']) := by
  constructor
  · intro vp rest n v j h
    exact ⟨(find_vp_match_pos vp rest n v j h).2.2.2, find_vp_match_longest vp rest n v j h⟩
  · intro pa hpa
    cases pa with
    | nil => exact absurd rfl hpa
    | cons p ps => rfl

/-- Witness for claim C1, at the phrase lexicon of the claim and a concrete
one-entry phonetic lexicon. -/
theorem longest_match_first_witness :
    dictLookup [((['A', 'B'] : List Char), (['x'] : List Char)), (['A'], ['y'])]
      ((['A', 'B'] : List Char).take 2) = some ['x'] ∧
    translate (mkVPState [(['z'], ['w'])] [(['A', 'B'], ['x']), (['A'], ['y'])] [] defaultOptions)
      ['A', 'B'] = ['x'] :=
  ⟨(longest_match_first.1 [((['A', 'B'] : List Char), (['x'] : List Char)), (['A'], ['y'])]
      ['A', 'B'] 2 ['x'] 2 (by decide)).1,
   longest_match_first.2 [(['z'], ['w'])] (by decide)⟩

/-- Claim C2.  The name pre-pass is a sequential cumulative rewrite: with no
name lexicon it is the identity; with a non-empty name lexicon each key's
pass replaces every occurrence of the key by a leading space plus its value
and feeds its result to the next key's pass; and on name lexicon 李明 mapped
to Lý Minh, the input 李明你好 is rewritten to " Lý Minh你好" before
segmentation. -/
theorem name_pass_sequential :
    (∀ (keys : List (List Char)) (text : List Char), namePass [] keys text = text) ∧
    (∀ (names : PyDict) (k : List Char) (ks : List (List Char)) (text : List Char),
       names ≠ [] →
       namePass names (k :: ks) text = namePass names ks (nameStep names text k)) ∧
    namePass [((['李', '明'] : List Char), (['L', 'ý', ' ', 'M', 'i', 'n', 'h'] : List Char))]
      (sortKeys (keysOf [(['李', '明'], ['L', 'ý', ' ', 'M', 'i', 'n', 'h'])]))
      ['李', '明', '你', '好'] =
      [' ', 'L', 'ý', ' ', 'M', 'i', 'n', 'h', '你', '好'] := by
  refine ⟨?_, ?_, rfl⟩
  · intro keys text
    unfold namePass
    rw [if_pos (Or.inl rfl)]
  · intro names k ks text hne
    have hguard : ¬(names = [] ∨ k :: ks = []) :=
      fun hor => Or.elim hor hne (fun hc => absurd hc (List.cons_ne_nil k ks))
    unfold namePass
    rw [if_neg hguard, List.foldl_cons]
    cases ks with
    | nil =>
      rw [if_pos (Or.inr rfl), List.foldl_nil]
    | cons k2 ks2 =>
      rw [if_neg (fun hor => Or.elim hor hne (fun hc => absurd hc (List.cons_ne_nil k2 ks2)))]

/-- Witness for claim C2, instantiating the sequential-rewrite step at a
concrete one-entry name lexicon. -/
theorem name_pass_sequential_witness :
    namePass [((['李', '明'] : List Char), (['L', 'ý'] : List Char))] [['李', '明']]
        ['李', '明'] =
      namePass [(['李', '明'], ['L', 'ý'])] []
        (nameStep [(['李', '明'], ['L', 'ý'])] ['李', '明'] ['李', '明']) :=
  name_pass_sequential.2.1 _ _ _ _ (by decide)

/-- Counterexample to claim C3 as stated: with phrase lexicon 你好 mapped to
"xin chào", phonetic lexicon for 你 and 好, and default options, translating
你好吗 yields "xin chào吗" — the unmatched 吗 is appended with no leading
space — and not the claimed "xin chào 吗". -/
theorem concrete_scenario_counterexample :
    translate (mkVPState [((['你'] : List Char), (['n', 'ỉ'] : List Char)), (['好'], ['h', 'ả', 'o'])]
        [(['你', '好'], ['x', 'i', 'n', ' ', 'c', 'h', 'à', 'o'])] [] defaultOptions)
      ['你', '好', '吗'] ≠ ['x', 'i', 'n', ' ', 'c', 'h', 'à', 'o', ' ', '吗'] := by
  decide

/-- Claim C3 as amended: the same scenario returns "xin chào吗", with no
space between the phrase translation and the copied-through 吗. -/
theorem concrete_scenario_amended :
    translate (mkVPState [((['你'] : List Char), (['n', 'ỉ'] : List Char)), (['好'], ['h', 'ả', 'o'])]
        [(['你', '好'], ['x', 'i', 'n', ' ', 'c', 'h', 'à', 'o'])] [] defaultOptions)
      ['你', '好', '吗'] = ['x', 'i', 'n', ' ', 'c', 'h', 'à', 'o', '吗'] := by
  rfl

/-- Counterexample to claim C4 as stated: with default options the particle
的, though absent from every lexicon, is dropped rather than passed through
(so the output is empty, not the normalized input); and with an empty phrase
lexicon the engine returns its input verbatim, without space collapsing. -/
theorem pass_through_counterexample :
    (translate (mkVPState [((['B'] : List Char), (['y'] : List Char))] [(['A'], ['x'])] []
        defaultOptions) ['的'] = [] ∧
      pyStrip (collapse_spaces ['的']) = ['的'] ∧ ([] : List Char) ≠ ['的']) ∧
    (translate (mkVPState [] [] [] defaultOptions) ['a', ' ', ' ', 'b'] = ['a', ' ', ' ', 'b'] ∧
      pyStrip (collapse_spaces ['a', ' ', ' ', 'b']) = ['a', ' ', 'b'] ∧
      (['a', ' ', ' ', 'b'] : List Char) ≠ ['a', ' ', 'b']) := by
  exact ⟨⟨rfl, rfl, by decide⟩, ⟨rfl, rfl, by decide⟩⟩

/-- Claim C4 as amended: for a text none of whose characters occurs in any
phrase, phonetic or name key, the translation is the text with space runs
collapsed and ends stripped, provided the phrase and phonetic lexicons are
non-empty (else the engine returns the raw input), every name key is
non-empty, and the text contains no particle character (which default
options drop). -/
theorem pass_through_amended (pa vp names : PyDict) (text : List Char)
    (hpa : pa ≠ []) (hvp : vp ≠ [])
    (hnk : ∀ kv ∈ names, kv.1 ≠ [])
    (hc : ∀ c ∈ text, (∀ kv ∈ vp, c ∉ kv.1) ∧ (∀ kv ∈ pa, c ∉ kv.1) ∧ (∀ kv ∈ names, c ∉ kv.1))
    (hp : ∀ c ∈ text, c ∉ (['的', '了', '着'] : List Char)) :
    translate (mkVPState pa vp names defaultOptions) text = pyStrip (collapse_spaces text) := by
  have hname : namePass names (sortKeys (keysOf names)) text = text := by
    apply namePass_id
    intro k hk
    obtain ⟨kv, hkv, hkeq⟩ := List.mem_map.mp (mem_sortKeys hk)
    exact ⟨hkeq ▸ hnk kv hkv, fun c hcmem => hkeq ▸ (hc c hcmem).2.2 kv hkv⟩
  unfold translate trans_vp
  simp only [mkVPState]
  rw [if_neg (fun hor => Or.elim hor hvp hpa)]
  rw [hname]
  rw [show (if defaultOptions.DichLieu = true then (['的', '了', '着'] : List Char) else []) =
    ['的', '了', '着'] from rfl]
  rw [trans_loop_passthrough vp pa defaultOptions _ _ text.length text (le_refl _)
    (fun c hcmem => ⟨(hc c hcmem).1, (hc c hcmem).2.1, hp c hcmem⟩)]

/-- Witness for claim C4 (amended), on lexicons over Latin letters and a
text with an internal run of spaces. -/
theorem pass_through_amended_witness :
    translate (mkVPState [((['B'] : List Char), (['y'] : List Char))] [(['A'], ['x'])]
        [(['C'], ['z'])] defaultOptions) ['a', ' ', ' ', 'b'] =
      pyStrip (collapse_spaces ['a', ' ', ' ', 'b']) :=
  pass_through_amended _ _ _ _ (by decide) (by decide) (by decide) (by decide) (by decide)

/-- Counterexample to claim C5 as stated: with drop-particles enabled, a
text made of the particle 的 does not translate to the empty string when 的
is itself a phrase-lexicon key (the phrase match fires first), nor when the
phrase or phonetic lexicon is empty (the engine then returns its input). -/
theorem particles_counterexample :
    (translate (mkVPState [((['你'] : List Char), (['a'] : List Char))] [(['的'], ['x'])] []
        defaultOptions) ['的'] = ['x'] ∧ (['x'] : List Char) ≠ []) ∧
    (translate (mkVPState [] [] [] defaultOptions) ['的'] = ['的'] ∧
      (['的'] : List Char) ≠ []) := by
  exact ⟨⟨rfl, by decide⟩, ⟨rfl, by decide⟩⟩

/-- Claim C5 as amended: with drop-particles enabled (the default), a text
consisting solely of the particles 的, 了, 着 translates to the empty
string, provided the phrase and phonetic lexicons are non-empty, no name
lexicon is loaded, and every phrase key contains some non-particle character
(so no phrase match can pre-empt the dropping). -/
theorem particles_dropped_amended (pa vp : PyDict) (text : List Char)
    (hpa : pa ≠ []) (hvp : vp ≠ [])
    (hk : ∀ kv ∈ vp, ∃ c ∈ kv.1, c ∉ (['的', '了', '着'] : List Char))
    (ht : ∀ c ∈ text, c ∈ (['的', '了', '着'] : List Char)) :
    translate (mkVPState pa vp [] defaultOptions) text = [] := by
  have hname : namePass [] (sortKeys (keysOf [])) text = text := by
    unfold namePass
    rw [if_pos (Or.inl rfl)]
  unfold translate trans_vp
  simp only [mkVPState]
  rw [if_neg (fun hor => Or.elim hor hvp hpa)]
  rw [hname]
  rw [show (if defaultOptions.DichLieu = true then (['的', '了', '着'] : List Char) else []) =
    ['的', '了', '着'] from rfl]
  rw [trans_loop_particles vp pa defaultOptions _ _ hk text.length text (le_refl _) ht]
  rfl

/-- Witness for claim C5 (amended), on a four-particle text. -/
theorem particles_dropped_amended_witness :
    translate (mkVPState [((['你'] : List Char), (['a'] : List Char))] [(['你', '好'], ['b'])] []
        defaultOptions) ['的', '了', '着', '的'] = [] :=
  particles_dropped_amended _ _ _ (by decide) (by decide) (by decide) (by decide)

/-- Counterexample to claim C6 as stated: for the retained source line
" a=b" (leading space before the key), the key the claim prescribes is the
untrimmed left part " a" of the raw line, but the loaded lexicon has no such
key — it binds the line-stripped key "a" instead. -/
theorem load_key_counterexample :
    claimedKey [' ', 'a', '=', 'b'] = [' ', 'a'] ∧
    dictLookup (load_dict_from_lines [[' ', 'a', '=', 'b']]) [' ', 'a'] = none ∧
    dictLookup (load_dict_from_lines [[' ', 'a', '=', 'b']]) ['a'] = some ['b'] := by
  exact ⟨rfl, rfl, rfl⟩

/-- Claim C6 as amended: each line is stripped of surrounding whitespace
before every check and before the split, so for a retained line the key is
the left part of the first '=' split of the *stripped* line (whitespace
adjacent to '=' kept, whitespace at the raw line's ends removed), the value
is the right part trimmed, and when several lines share a key the last
occurrence wins. -/
theorem load_key_splits_stripped_line (ls : List (List Char)) (line : List Char)
    (h1 : pyStrip line ≠ [])
    (h2 : isCommentLine (pyStrip line) = false)
    (h3 : (pyStrip line).contains '=' = true) :
    dictLookup (load_dict_from_lines (ls ++ [line]))
      ((pyStrip line).takeWhile (fun c => c != '=')) =
      some (pyStrip (((pyStrip line).dropWhile (fun c => c != '=')).tail)) := by
  unfold load_dict_from_lines
  rw [List.foldl_append, List.foldl_cons, List.foldl_nil]
  unfold processLine
  simp only []
  rw [if_neg h1, if_neg (by simp [h2])]
  have hs : splitOnce (pyStrip line) '=' =
      some ((pyStrip line).takeWhile (fun c => c != '='),
        ((pyStrip line).dropWhile (fun c => c != '=')).tail) := by
    unfold splitOnce
    rw [if_pos h3]
  simp only [hs]
  exact dictLookup_dictInsert _ _ _

/-- Witness for claim C6 (amended): the line "a = b" (spaces around '=')
appended after an earlier binding of the same key "a " is looked up at the
stripped-split key with the trimmed value. -/
theorem load_key_splits_stripped_line_witness :
    dictLookup (load_dict_from_lines ([[' ', 'a', ' ', '=', 'c']] ++ [['a', ' ', '=', ' ', 'b']]))
      ((pyStrip ['a', ' ', '=', ' ', 'b']).takeWhile (fun c => c != '=')) =
      some (pyStrip (((pyStrip ['a', ' ', '=', ' ', 'b']).dropWhile (fun c => c != '=')).tail)) :=
  load_key_splits_stripped_line _ _ (by decide) (by decide) (by decide)

/-- Claim C7.  When reading any one of the three lexicon sources fails, the
load call reports failure as a boolean (the function is total, no exception
escapes), the dictionary for that source stays empty, and the loading and
contents of the other two dictionaries, loaded independently, are exactly
those of loading each of them alone — stated once for each of the phonetic,
phrase and name source failing, with the two surviving sources arbitrary. -/
theorem load_failure_isolated (srcA srcB : Except Unit (List (List Char))) :
    ((load_default_dictionaries (Except.error ()) srcA srcB initState).1.dict_pa = [] ∧
      (load_default_dictionaries (Except.error ()) srcA srcB initState).2.1 = false ∧
      (load_default_dictionaries (Except.error ()) srcA srcB initState).1.dict_vp =
        (load_dict_from_file srcA DictType.vp initState).1.dict_vp ∧
      (load_default_dictionaries (Except.error ()) srcA srcB initState).2.2.1 =
        (load_dict_from_file srcA DictType.vp initState).2 ∧
      (load_default_dictionaries (Except.error ()) srcA srcB initState).1.dict_names =
        (load_dict_from_file srcB DictType.names initState).1.dict_names ∧
      (load_default_dictionaries (Except.error ()) srcA srcB initState).2.2.2 =
        (load_dict_from_file srcB DictType.names initState).2) ∧
    ((load_default_dictionaries srcA (Except.error ()) srcB initState).1.dict_vp = [] ∧
      (load_default_dictionaries srcA (Except.error ()) srcB initState).2.2.1 = false ∧
      (load_default_dictionaries srcA (Except.error ()) srcB initState).1.dict_pa =
        (load_dict_from_file srcA DictType.pa initState).1.dict_pa ∧
      (load_default_dictionaries srcA (Except.error ()) srcB initState).2.1 =
        (load_dict_from_file srcA DictType.pa initState).2 ∧
      (load_default_dictionaries srcA (Except.error ()) srcB initState).1.dict_names =
        (load_dict_from_file srcB DictType.names initState).1.dict_names ∧
      (load_default_dictionaries srcA (Except.error ()) srcB initState).2.2.2 =
        (load_dict_from_file srcB DictType.names initState).2) ∧
    ((load_default_dictionaries srcA srcB (Except.error ()) initState).1.dict_names = [] ∧
      (load_default_dictionaries srcA srcB (Except.error ()) initState).2.2.2 = false ∧
      (load_default_dictionaries srcA srcB (Except.error ()) initState).1.dict_pa =
        (load_dict_from_file srcA DictType.pa initState).1.dict_pa ∧
      (load_default_dictionaries srcA srcB (Except.error ()) initState).2.1 =
        (load_dict_from_file srcA DictType.pa initState).2 ∧
      (load_default_dictionaries srcA srcB (Except.error ()) initState).1.dict_vp =
        (load_dict_from_file srcB DictType.vp initState).1.dict_vp ∧
      (load_default_dictionaries srcA srcB (Except.error ()) initState).2.2.1 =
        (load_dict_from_file srcB DictType.vp initState).2) := by
  cases srcA <;> cases srcB <;>
    exact ⟨⟨rfl, rfl, rfl, rfl, rfl, rfl⟩, ⟨rfl, rfl, rfl, rfl, rfl, rfl⟩,
      rfl, rfl, rfl, rfl, rfl, rfl⟩

/-- Counterexample to claim C8 as stated: translate can raise.  With
first-meaning-only enabled and the meaning separator set to the empty
string, a phrase match calls `vp.split('')`, on which CPython raises
`ValueError: empty separator`; the error-aware embedding returns an error at
this concrete state and input instead of a string. -/
theorem translate_raises_on_empty_separator :
    translateE
      { options := { Ngoac := false, Motnghia := true, daucach := [], DichLieu := true },
        dict_pa := [(['B'], ['y'])], dict_vp := [(['A'], ['x'])], dict_names := [],
        dict_vp_keys := sortKeys (keysOf [(['A'], ['x'])]), dict_names_keys := [] }
      ['A'] = Except.error () ∧
    (Except.error () : Except Unit (List Char)) ≠
      Except.ok (translate
        { options := { Ngoac := false, Motnghia := true, daucach := [], DichLieu := true },
          dict_pa := [(['B'], ['y'])], dict_vp := [(['A'], ['x'])], dict_names := [],
          dict_vp_keys := sortKeys (keysOf [(['A'], ['x'])]), dict_names_keys := [] }
        ['A']) :=
  ⟨rfl, fun h => Except.noConfusion h⟩

/-- Claim C8 as amended.  For every finite input text, translate terminates
and returns a string without raising — the error-aware embedding returns
`Except.ok` of the plain result — provided the meaning-separator option is a
non-empty string (as its default "/" is; with an empty separator a phrase
match raises inside `str.split`), and with an empty phrase or phonetic
lexicon it degrades to returning the input rather than failing. -/
theorem translate_no_raise_amended (st : TransState) (text : List Char)
    (hsep : st.options.daucach ≠ []) :
    translateE st text = Except.ok (translate st text) ∧
    ((st.dict_vp = [] ∨ st.dict_pa = []) → translate st text = text) := by
  constructor
  · unfold translateE trans_vpE translate trans_vp
    by_cases hg : st.dict_vp = [] ∨ st.dict_pa = []
    · rw [if_pos hg, if_pos hg]
    · rw [if_neg hg, if_neg hg]
      simp only [trans_loopE_ok st.dict_vp st.dict_pa st.options _ _ hsep]
  · intro h
    unfold translate trans_vp
    rw [if_pos h]

/-- Witness for claim C8 (amended): no raise on a state with non-empty
lexicons and a firing phrase match, and input pass-through on the freshly
initialized state whose lexicons are empty. -/
theorem translate_no_raise_amended_witness :
    translateE (mkVPState [((['B'] : List Char), (['y'] : List Char))] [(['A'], ['x'])] []
        defaultOptions) ['A'] =
      Except.ok (translate (mkVPState [(['B'], ['y'])] [(['A'], ['x'])] [] defaultOptions)
        ['A']) ∧
    translate initState ['你'] = ['你'] :=
  ⟨(translate_no_raise_amended _ _ (by decide)).1,
   (translate_no_raise_amended initState ['你'] (by decide)).2 (Or.inl rfl)⟩

/-- Claim C9.  When the phrase or the phonetic lexicon is empty, `translate`
returns its input exactly: no name pre-pass (even with a name lexicon
loaded), no substitution, no particle dropping, no space collapsing and no
trimming happen. -/
theorem trans_vp_passthrough_of_empty (st : TransState) (text : List Char)
    (h : st.dict_vp = [] ∨ st.dict_pa = []) :
    translate st text = text := by
  unfold translate trans_vp
  rw [if_pos h]

/-- Witness for claim C9: an empty phrase lexicon next to a loaded name
lexicon whose key occurs in the text, which is still returned verbatim. -/
theorem trans_vp_passthrough_of_empty_witness :
    translate (mkVPState [((['你'] : List Char), (['a'] : List Char))] []
        [(['李', '明'], ['L', 'ý'])] defaultOptions) ['李', '明', ' ', ' ', '的'] =
      ['李', '明', ' ', ' ', '的'] :=
  trans_vp_passthrough_of_empty _ _ (Or.inl rfl)

/-- Claim C10.  A non-empty, non-comment line without '=' contributes no
entry and does not fail: loading with the line present equals loading
without it. -/
theorem load_skips_lines_without_eq (ls1 ls2 : List (List Char)) (line : List Char)
    (h1 : pyStrip line ≠ [])
    (h2 : isCommentLine (pyStrip line) = false)
    (h3 : (pyStrip line).contains '=' = false) :
    load_dict_from_lines (ls1 ++ line :: ls2) = load_dict_from_lines (ls1 ++ ls2) := by
  have hskip : ∀ d : PyDict, processLine d line = d := by
    intro d
    unfold processLine
    simp only []
    rw [if_neg h1, if_neg (by simp [h2])]
    have hs : splitOnce (pyStrip line) '=' = none := by
      unfold splitOnce
      rw [if_neg (fun hcontra => by rw [h3] at hcontra; cases hcontra)]
    simp only [hs]
  unfold load_dict_from_lines
  rw [List.foldl_append, List.foldl_append, List.foldl_cons, hskip]

/-- Witness for claim C10: a stray line "xy" between two real entries leaves
the loaded lexicon exactly as without it. -/
theorem load_skips_lines_without_eq_witness :
    load_dict_from_lines ([['a', '=', 'c']] ++ ['x', 'y'] :: [['b', '=', 'd']]) =
      load_dict_from_lines ([['a', '=', 'c']] ++ [['b', '=', 'd']]) :=
  load_skips_lines_without_eq _ _ _ (by decide) (by decide) (by decide)

end VietPhrase
